import Mathlib

/-!
Verification of the SweepAlgo options-flow backend against its specification.

The definitions below are shallow embeddings of the JavaScript source:
pure functions become Lean functions over `ℚ` (JS numbers on the code paths
considered here are exact decimals, so `ℚ` models them faithfully), the
vendor-payload field-resolution chains (`a || b || c || default`) become
explicit option chains with JS truthiness (`0` and missing are falsy), and
string enums (side, sentiment, trade type, option kind) become inductive
types.  Stateful code (the trade store, the recent-exchange ring) is modelled
by explicit state passing over insertion-ordered association lists, which is
exactly the observable behaviour of a JS `Map`.
-/

namespace SweepAlgo

/-- Option kind, the `'CALL' | 'PUT'` strings of the source. -/
inductive OptKind where
  | CALL
  | PUT
deriving DecidableEq, Repr

/-- The side labels returned by `detectSide` in `utils/optionsCalculations.js`. -/
inductive Side where
  | aboveAsk
  | atAsk
  | toAsk
  | mid
  | toBid
  | atBid
  | belowBid
deriving DecidableEq, Repr

/-- Aggressor labels of `detectSide`. -/
inductive Aggressor where
  | buyer
  | seller
  | neutral
deriving DecidableEq, Repr

/-- The sentiment strings produced by `detectSide` (`'Bullish' | 'Bearish' | 'Neutral'`). -/
inductive SideSentiment where
  | bullish
  | bearish
  | neutralS
deriving DecidableEq, Repr

/-- The sentiment strings stored on flow records (`'BULL' | 'BEAR' | 'NEUTRAL'`). -/
inductive Sentiment where
  | BULL
  | BEAR
  | NEUTRAL
deriving DecidableEq, Repr

/-- Result record of `detectSide`. -/
structure SideResult where
  side : Side
  sentiment : SideSentiment
  aggressor : Aggressor
deriving DecidableEq, Repr

/-- `detectSide(price, bid, ask, optionType)` from `utils/optionsCalculations.js`
(BUG #4 FIX).  The JS guard `!bid || !ask || bid === 0 || ask === 0` is the
numeric-zero test; `spread * 0.1` is the exact rational `spread / 10`. -/
def detectSide (price bid ask : ℚ) (optionType : OptKind) : SideResult :=
  if bid = 0 ∨ ask = 0 then
    ⟨Side.mid, SideSentiment.neutralS, Aggressor.neutral⟩
  else
    let midQ := (bid + ask) / 2
    let spread := ask - bid
    let threshold := spread * (1 / 10)
    let sa : Side × Aggressor :=
      if price ≥ ask - threshold then
        (if price > ask then Side.aboveAsk else Side.atAsk, Aggressor.buyer)
      else if price ≤ bid + threshold then
        (if price < bid then Side.belowBid else Side.atBid, Aggressor.seller)
      else if price > midQ then
        (Side.toAsk, Aggressor.buyer)
      else if price < midQ then
        (Side.toBid, Aggressor.seller)
      else
        (Side.mid, Aggressor.neutral)
    let sentiment :=
      if sa.2 = Aggressor.neutral then SideSentiment.neutralS
      else if optionType = OptKind.CALL then
        (if sa.2 = Aggressor.buyer then SideSentiment.bullish else SideSentiment.bearish)
      else
        (if sa.2 = Aggressor.buyer then SideSentiment.bearish else SideSentiment.bullish)
    ⟨sa.1, sentiment, sa.2⟩

/-- `formatSentiment` from the options-flow route: converts the
`detectSide` sentiment to the stored `BULL`/`BEAR`/`NEUTRAL` form. -/
def formatSentiment : SideSentiment → Sentiment
  | SideSentiment.bullish => Sentiment.BULL
  | SideSentiment.bearish => Sentiment.BEAR
  | SideSentiment.neutralS => Sentiment.NEUTRAL

/-- The sentiment table of §4.4.1 of the spec: sentiment is a function of
(kind, aggressor).  Used to state that `detectSide` respects the table. -/
def sentimentTable (k : OptKind) (a : Aggressor) : SideSentiment :=
  match a with
  | Aggressor.neutral => SideSentiment.neutralS
  | Aggressor.buyer =>
      match k with
      | OptKind.CALL => SideSentiment.bullish
      | OptKind.PUT => SideSentiment.bearish
  | Aggressor.seller =>
      match k with
      | OptKind.CALL => SideSentiment.bearish
      | OptKind.PUT => SideSentiment.bullish

/-- The sentiment component of `detectSide` always agrees with the
(kind, aggressor) table, whatever the price/quote inputs. -/
theorem detectSide_sentiment_is_table (P B A : ℚ) (k : OptKind) :
    (detectSide P B A k).sentiment = sentimentTable k (detectSide P B A k).aggressor := by
  simp only [detectSide]
  split_ifs <;> cases k <;> simp_all [sentimentTable]

/-- Claim C5: side detection follows the rules of §4.4.1.  With trade price
`P`, bid `B`, ask `A`, `mid = (B+A)/2` and `τ = (A−B)/10`: a price above the
ask is `Above Ask` with aggressor buyer; a price within `τ` below the ask is
`At Ask` (buyer); a price above mid (below the `At Ask` band) is `To Ask`
(buyer); symmetrically on the bid side; the sentiment is always the function
of (kind, aggressor) of the table; and on `bid = 1.00`, `ask = 1.10`,
`price = 1.11`, kind Put the result is side `Above Ask`, aggressor buyer,
sentiment `BEAR` after `formatSentiment`. -/
theorem detectSide_spec_rules (P B A : ℚ) (k : OptKind)
    (hB : 0 < B) (hBA : B < A) :
    (A < P → (detectSide P B A k).side = Side.aboveAsk ∧
      (detectSide P B A k).aggressor = Aggressor.buyer) ∧
    (A - (A - B) / 10 ≤ P → P ≤ A → (detectSide P B A k).side = Side.atAsk ∧
      (detectSide P B A k).aggressor = Aggressor.buyer) ∧
    ((B + A) / 2 < P → P < A - (A - B) / 10 → (detectSide P B A k).side = Side.toAsk ∧
      (detectSide P B A k).aggressor = Aggressor.buyer) ∧
    (P < B → (detectSide P B A k).side = Side.belowBid ∧
      (detectSide P B A k).aggressor = Aggressor.seller) ∧
    (B ≤ P → P ≤ B + (A - B) / 10 → (detectSide P B A k).side = Side.atBid ∧
      (detectSide P B A k).aggressor = Aggressor.seller) ∧
    (B + (A - B) / 10 < P → P < (B + A) / 2 → (detectSide P B A k).side = Side.toBid ∧
      (detectSide P B A k).aggressor = Aggressor.seller) ∧
    (detectSide P B A k).sentiment = sentimentTable k (detectSide P B A k).aggressor ∧
    detectSide (111/100) 1 (11/10) OptKind.PUT =
      ⟨Side.aboveAsk, SideSentiment.bearish, Aggressor.buyer⟩ ∧
    formatSentiment (detectSide (111/100) 1 (11/10) OptKind.PUT).sentiment = Sentiment.BEAR := by
  have hB0 : ¬ (B = 0 ∨ A = 0) := by
    rintro (h | h) <;> subst h <;> linarith
  refine ⟨?_, ?_, ?_, ?_, ?_, ?_, detectSide_sentiment_is_table P B A k, ?_, ?_⟩
  · intro hP
    simp only [detectSide]
    rw [if_neg hB0, if_pos (show P ≥ A - (A - B) * (1/10) by linarith), if_pos hP]
    exact ⟨rfl, rfl⟩
  · intro h1 h2
    simp only [detectSide]
    rw [if_neg hB0, if_pos (show P ≥ A - (A - B) * (1/10) by linarith),
      if_neg (show ¬ P > A by push_neg; exact h2)]
    exact ⟨rfl, rfl⟩
  · intro h1 h2
    simp only [detectSide]
    rw [if_neg hB0, if_neg (show ¬ P ≥ A - (A - B) * (1/10) by push_neg; linarith),
      if_neg (show ¬ P ≤ B + (A - B) * (1/10) by push_neg; linarith),
      if_pos (show P > (B + A) / 2 from h1)]
    exact ⟨rfl, rfl⟩
  · intro hP
    simp only [detectSide]
    rw [if_neg hB0, if_neg (show ¬ P ≥ A - (A - B) * (1/10) by push_neg; linarith),
      if_pos (show P ≤ B + (A - B) * (1/10) by linarith), if_pos hP]
    exact ⟨rfl, rfl⟩
  · intro h1 h2
    simp only [detectSide]
    rw [if_neg hB0, if_neg (show ¬ P ≥ A - (A - B) * (1/10) by push_neg; linarith),
      if_pos (show P ≤ B + (A - B) * (1/10) by linarith),
      if_neg (show ¬ P < B by push_neg; exact h1)]
    exact ⟨rfl, rfl⟩
  · intro h1 h2
    simp only [detectSide]
    rw [if_neg hB0, if_neg (show ¬ P ≥ A - (A - B) * (1/10) by push_neg; linarith),
      if_neg (show ¬ P ≤ B + (A - B) * (1/10) by push_neg; linarith),
      if_neg (show ¬ P > (B + A) / 2 by push_neg; linarith),
      if_pos (show P < (B + A) / 2 from h2)]
    exact ⟨rfl, rfl⟩
  · norm_num [detectSide]
    decide
  · norm_num [detectSide, formatSentiment]
    decide

/-- Witness for C5 at the S2 scenario values. -/
theorem detectSide_spec_rules_witness :
    (0 : ℚ) < 1 ∧ (1 : ℚ) < 11/10 ∧
    ((11 : ℚ)/10 < 111/100 →
      (detectSide (111/100) 1 (11/10) OptKind.PUT).side = Side.aboveAsk ∧
      (detectSide (111/100) 1 (11/10) OptKind.PUT).aggressor = Aggressor.buyer) :=
  ⟨by norm_num, by norm_num,
    (detectSide_spec_rules (111/100) 1 (11/10) OptKind.PUT (by norm_num) (by norm_num)).1⟩

/-- Trade type labels (`'Sweep' | 'Block' | 'Split'`). -/
inductive TradeType where
  | Sweep
  | Block
  | Split
deriving DecidableEq, Repr

/-- A trade tick as handed to `classifyTradeType`: the object
`{symbol, size, premium, exchange, timestamp}` built by the callers.
`exchange` and `timestamp` are optional; a JS-falsy value (absent or `0`)
is modelled as `none` by the truthiness helpers below. -/
structure TradeTick where
  symbol : Nat
  size : ℚ
  premium : ℚ
  exchange : Option Nat
  timestamp : Option ℚ
deriving DecidableEq, Repr

/-- JS truthiness of an optional number (`undefined` and `0` are falsy). -/
def truthyNat (o : Option Nat) : Bool :=
  match o with
  | none => false
  | some x => decide (x ≠ 0)

/-- JS truthiness of an optional numeric timestamp. -/
def truthyRat (o : Option ℚ) : Bool :=
  match o with
  | none => false
  | some x => decide (x ≠ 0)

/-- The per-contract recent-trades map (`recentTradesMap`), a JS `Map` from
contract symbol to the ring of recent ticks, modelled as an
insertion-ordered association list. -/
abbrev RecentMap := List (Nat × List TradeTick)

/-- `Map.get(key)` on the recent-trades map. -/
def mapFind (m : RecentMap) (k : Nat) : Option (List TradeTick) :=
  (m.find? (fun kv => kv.1 == k)).map (fun kv => kv.2)

/-- `Map.set(key, value)`: update in place when the key exists (preserving
insertion order), else append. -/
def mapSetList (m : RecentMap) (k : Nat) (v : List TradeTick) : RecentMap :=
  if m.any (fun kv => kv.1 == k) then
    m.map (fun kv => if kv.1 == k then (k, v) else kv)
  else m ++ [(k, v)]

/-- The size/premium heuristics at the tail of `classifyTradeType`
(the code falls through to these whenever it has not already returned). -/
def fallbackClassify (trade : TradeTick) : TradeType :=
  if trade.size ≥ 50 ∧ trade.premium ≥ 25000 ∧ (trade.size ≥ 100 ∨ trade.premium ≥ 50000) then
    TradeType.Sweep
  else if trade.size ≥ 200 ∨ trade.premium ≥ 100000 then
    TradeType.Block
  else if trade.size ≥ 25 ∧ trade.premium ≥ 10000 then
    TradeType.Sweep
  else
    TradeType.Split

/-- `classifyTradeType(trade, recentTrades)` from `utils/optionsCalculations.js`
(BUG #7 & #8 FIX).  Returns the label together with the updated
recent-trades map (the JS function mutates the map in place).
`SWEEP_WINDOW_MS = 500`. -/
def classifyTradeType (trade : TradeTick) (recentTrades : RecentMap) :
    TradeType × RecentMap :=
  if trade.size ≥ 100 ∧ trade.premium ≥ 50000 then
    (TradeType.Block, recentTrades)
  else if truthyNat trade.exchange && truthyRat trade.timestamp then
    let ts := trade.timestamp.getD 0
    let recent := (mapFind recentTrades trade.symbol).getD []
    let sweepWindow := recent.filter (fun t =>
      decide (|t.timestamp.getD 0 - ts| ≤ 500) && decide (t.exchange ≠ trade.exchange))
    if sweepWindow.length ≥ 1 then
      (TradeType.Sweep, recentTrades)
    else
      let recent2 := recent ++ [trade]
      (fallbackClassify trade,
        mapSetList recentTrades trade.symbol (recent2.drop (recent2.length - 10)))
  else
    (fallbackClassify trade, recentTrades)

/-- S3 first tick: same contract, exchange A (id 1) at t = 0 ms,
size 30, premium $12,000. -/
def s3Tick1 : TradeTick := ⟨0, 30, 12000, some 1, some 0⟩

/-- S3 second tick: exchange B (id 2) at t = 300 ms, size 30, premium $12,000. -/
def s3Tick2 : TradeTick := ⟨0, 30, 12000, some 2, some 300⟩

/-- S3 first tick shifted to a nonzero time origin (t = 1 ms). -/
def s3Tick1s : TradeTick := ⟨0, 30, 12000, some 1, some 1⟩

/-- Claim C2, counterexample: on the S3 scenario the first tick is classified
`Sweep`, not `Split` — the size/premium fallback (size ≥ 25 and
premium ≥ $10K ⇒ Sweep) applies to it. -/
theorem classifyTradeType_s3_first_not_split :
    (classifyTradeType s3Tick1 []).1 = TradeType.Sweep ∧
    (classifyTradeType s3Tick1 []).1 ≠ TradeType.Split := by
  norm_num [classifyTradeType, fallbackClassify, s3Tick1, truthyNat, truthyRat]
  decide

/-- Claim C2, amended: on the S3 scenario both ticks are classified `Sweep`.
The size/premium fallback applies whenever the exchange-ring check does not
fire, even when exchange/time information is present: the first tick (empty
ring) gets `Sweep` from the `size ≥ 25 ∧ premium ≥ $10K` rule, and the second
tick gets `Sweep` from ring detection once the ring holds the first tick
(with the literal t = 0 the JS truthiness check treats the first timestamp as
missing, so the ring stays empty and the second tick is also classified by
the fallback, again as `Sweep`). -/
theorem classifyTradeType_s3_both_sweep :
    (classifyTradeType s3Tick1 []).1 = TradeType.Sweep ∧
    (classifyTradeType s3Tick2 (classifyTradeType s3Tick1 []).2).1 = TradeType.Sweep ∧
    (classifyTradeType s3Tick1s []).1 = TradeType.Sweep ∧
    (classifyTradeType s3Tick2 (classifyTradeType s3Tick1s []).2).1 = TradeType.Sweep ∧
    (classifyTradeType s3Tick1s []).2 = [(0, [s3Tick1s])] ∧
    fallbackClassify s3Tick1 = TradeType.Sweep := by
  norm_num [classifyTradeType, fallbackClassify, mapSetList, mapFind,
    s3Tick1, s3Tick2, s3Tick1s, truthyNat, truthyRat]

/-- Input object of `calculateSetupScore` (BUG #15 FIX).  `premium` is the
resolved premium number: the code reads `trade.premiumRaw` and only falls
back to re-parsing the formatted premium string, which denotes the same
value.  `dte` is the number parsed out of the `"<n>d"` display string
(`"N/A"` parses to 0 via `parseInt(...) || 0`). -/
structure ScoreInput where
  volume : ℚ
  openInterest : ℚ
  premium : ℚ
  tradeType : TradeType
  side : Side
  dte : Nat
deriving DecidableEq, Repr

/-- Result of `calculateSetupScore` (the `reasons` string list is omitted). -/
structure ScoreResult where
  score : ℤ
  isHighProbability : Bool
deriving DecidableEq, Repr

/-- Volume scoring step of `calculateSetupScore`. -/
def volStep (v : ℚ) (s : ℤ) : ℤ :=
  if v ≥ 5000 then s + 2 else if v ≥ 1000 then s + 1 else if v < 10 then s - 3 else s

/-- Open-interest scoring step of `calculateSetupScore`. -/
def oiStep (oi : ℚ) (s : ℤ) : ℤ :=
  if oi < 10 then s - 3 else if oi < 100 then s - 1 else if oi ≥ 1000 then s + 1 else s

/-- Premium scoring step of `calculateSetupScore`. -/
def premStep (p : ℚ) (s : ℤ) : ℤ :=
  if p ≥ 1000000 then s + 2 else if p ≥ 100000 then s + 1 else if p < 10000 then s - 1 else s

/-- Trade-type scoring step of `calculateSetupScore`. -/
def ttStep (tt : TradeType) (s : ℤ) : ℤ :=
  if tt = TradeType.Sweep then s + 1 else if tt = TradeType.Block then s + 1 else s

/-- Side scoring step of `calculateSetupScore`. -/
def sideStep (sd : Side) (s : ℤ) : ℤ :=
  if sd = Side.aboveAsk ∨ sd = Side.atAsk then s + 1 else s

/-- DTE scoring step of `calculateSetupScore`. -/
def dteStep (d : Nat) (s : ℤ) : ℤ :=
  if d = 0 then s - 1 else if 30 ≤ d ∧ d ≤ 60 then s + 1 else s

/-- `score = Math.max(0, Math.min(10, score))`. -/
def clampScore (s : ℤ) : ℤ := max 0 (min 10 s)

/-- `calculateSetupScore(trade)` from `utils/optionsCalculations.js`:
start at 5, apply the adjustment steps in source order, clamp to [0,10];
`isHighProbability = score ≥ 7 && volume ≥ 100 && openInterest ≥ 100 &&
premium ≥ 25000` on the clamped score. -/
def calculateSetupScore (t : ScoreInput) : ScoreResult :=
  let s := clampScore
    (dteStep t.dte (sideStep t.side (ttStep t.tradeType
      (premStep t.premium (oiStep t.openInterest (volStep t.volume 5))))))
  { score := s
    isHighProbability :=
      decide (s ≥ 7 ∧ t.volume ≥ 100 ∧ t.openInterest ≥ 100 ∧ t.premium ≥ 25000) }

/-- The §4.4.5 table, volume row: vol ≥ 5000 ⇒ +2; ≥ 1000 ⇒ +1; < 10 ⇒ −3. -/
def volAdj (v : ℚ) : ℤ :=
  if v ≥ 5000 then 2 else if v ≥ 1000 then 1 else if v < 10 then -3 else 0

/-- The §4.4.5 table, OI row: OI < 10 ⇒ −3; < 100 ⇒ −1; ≥ 1000 ⇒ +1. -/
def oiAdj (oi : ℚ) : ℤ :=
  if oi < 10 then -3 else if oi < 100 then -1 else if oi ≥ 1000 then 1 else 0

/-- The §4.4.5 table, premium row: ≥ $1M ⇒ +2; ≥ $100K ⇒ +1; < $10K ⇒ −1. -/
def premAdj (p : ℚ) : ℤ :=
  if p ≥ 1000000 then 2 else if p ≥ 100000 then 1 else if p < 10000 then -1 else 0

/-- The §4.4.5 table, trade-type row: Sweep or Block ⇒ +1. -/
def ttAdj (tt : TradeType) : ℤ :=
  if tt = TradeType.Sweep ∨ tt = TradeType.Block then 1 else 0

/-- The §4.4.5 table, side row: Above Ask or At Ask ⇒ +1. -/
def sideAdj (sd : Side) : ℤ :=
  if sd = Side.aboveAsk ∨ sd = Side.atAsk then 1 else 0

/-- The §4.4.5 table, DTE row: DTE = 0 ⇒ −1; 30 ≤ DTE ≤ 60 ⇒ +1. -/
def dteAdj (d : Nat) : ℤ :=
  if d = 0 then -1 else if 30 ≤ d ∧ d ≤ 60 then 1 else 0

/-- Claim C8: the setup score starts at 5, applies exactly the additive
adjustments of the §4.4.5 table, is clamped to [0,10], and
`isHighProbability` holds exactly when score ≥ 7 and volume ≥ 100 and
OI ≥ 100 and premium ≥ $25K. -/
theorem calculateSetupScore_spec (t : ScoreInput) :
    (calculateSetupScore t).score =
      max 0 (min 10 (5 + volAdj t.volume + oiAdj t.openInterest + premAdj t.premium +
        ttAdj t.tradeType + sideAdj t.side + dteAdj t.dte)) ∧
    0 ≤ (calculateSetupScore t).score ∧ (calculateSetupScore t).score ≤ 10 ∧
    ((calculateSetupScore t).isHighProbability = true ↔
      (calculateSetupScore t).score ≥ 7 ∧ t.volume ≥ 100 ∧
        t.openInterest ≥ 100 ∧ t.premium ≥ 25000) := by
  have hv : ∀ s, volStep t.volume s = s + volAdj t.volume := by
    intro s; unfold volStep volAdj; split_ifs <;> ring
  have hoi : ∀ s, oiStep t.openInterest s = s + oiAdj t.openInterest := by
    intro s; unfold oiStep oiAdj; split_ifs <;> ring
  have hp : ∀ s, premStep t.premium s = s + premAdj t.premium := by
    intro s; unfold premStep premAdj; split_ifs <;> ring
  have htt : ∀ s, ttStep t.tradeType s = s + ttAdj t.tradeType := by
    intro s; unfold ttStep ttAdj
    cases t.tradeType <;> simp
  have hsd : ∀ s, sideStep t.side s = s + sideAdj t.side := by
    intro s; unfold sideStep sideAdj; split_ifs <;> ring
  have hd : ∀ s, dteStep t.dte s = s + dteAdj t.dte := by
    intro s; unfold dteStep dteAdj; split_ifs <;> ring
  refine ⟨?_, ?_, ?_, ?_⟩
  · simp only [calculateSetupScore, hv, hoi, hp, htt, hsd, hd, clampScore]
  · simp only [calculateSetupScore, clampScore]
    exact le_max_left 0 _
  · simp only [calculateSetupScore, clampScore]
    exact max_le (by norm_num) (min_le_left 10 _)
  · simp only [calculateSetupScore, decide_eq_true_eq]

/-- The store-relevant fields of the `tradeData` object built by
`processOptionsTrade` (the live WebSocket trade path).  The source sets
`openInterest: 0  // Will be updated later` in the `calculateSetupScore`
argument and `oi: 0  // Will be fetched later` on the stored record; no
later update exists in the code.  `size` is the tick size `s`,
`premium = p·s·100`, `tradeType`/`side`/`dte` are the enriched labels. -/
structure WsFlowBits where
  oi : ℚ
  confidence : ℤ
  isHighProbability : Bool
deriving DecidableEq, Repr

/-- The `oi`, `confidence` and `isHighProbability` fields of the flow record
created by `processOptionsTrade` for a live WebSocket tick. -/
def processOptionsTradeFlow (size premium : ℚ) (tt : TradeType) (sd : Side)
    (dte : Nat) : WsFlowBits :=
  let scoreData := calculateSetupScore
    { volume := size, openInterest := 0, premium := premium,
      tradeType := tt, side := sd, dte := dte }
  { oi := 0, confidence := scoreData.score, isHighProbability := scoreData.isHighProbability }

/-- Claim C10: every flow record created by the live WebSocket trade path is
stored with open interest 0, and its `isHighProbability` flag is therefore
always false (the high-probability condition requires open interest ≥ 100). -/
theorem processOptionsTradeFlow_oi_zero_not_high_probability
    (size premium : ℚ) (tt : TradeType) (sd : Side) (dte : Nat) :
    (processOptionsTradeFlow size premium tt sd dte).oi = 0 ∧
    (processOptionsTradeFlow size premium tt sd dte).isHighProbability = false := by
  refine ⟨rfl, ?_⟩
  simp only [processOptionsTradeFlow, calculateSetupScore, decide_eq_false_iff_not]
  rintro ⟨-, -, h, -⟩
  norm_num at h

/-- A stored flow record, reduced to the field the store's age sweep reads:
the event-time in epoch milliseconds (`new Date(trade.timestamp).getTime()`;
the stored `timestamp` is a nonempty ISO string, so the JS truthiness guard
`trade.timestamp &&` always passes). -/
structure StoredTrade where
  timestamp : Nat
deriving DecidableEq, Repr

/-- `tradesStore`, a JS `Map` from key string to flow record, modelled as an
insertion-ordered association list (abstract `Nat` keys). -/
abbrev TradesStore := List (Nat × StoredTrade)

/-- `const MAX_TRADES = 100000`. -/
def MAX_TRADES : Nat := 100000

/-- `Map.set` on the trade store: update in place when the key exists
(preserving insertion order), else append. -/
def storeSet (m : TradesStore) (k : Nat) (v : StoredTrade) : TradesStore :=
  if m.any (fun kv => kv.1 == k) then
    m.map (fun kv => if kv.1 == k then (k, v) else kv)
  else m ++ [(k, v)]

/-- `tradesStore.delete(tradesStore.keys().next().value)`: the first key of a
JS `Map` is the oldest-inserted one, so this removes the head entry
(a no-op on the empty store, where the key is `undefined`). -/
def dropOldest (m : TradesStore) : TradesStore :=
  match m with
  | [] => []
  | _ :: t => t

/-- The insert performed by `processOptionsTrade` (WebSocket path):
`tradesStore.set(globalKey, tradeData)` followed by
`if (tradesStore.size > MAX_TRADES) { delete oldest }`. -/
def wsInsert (m : TradesStore) (k : Nat) (v : StoredTrade) : TradesStore :=
  let m1 := storeSet m k v
  if m1.length > MAX_TRADES then dropOldest m1 else m1

/-- The age sweep in `fetchOptionsFromREST`: delete every entry whose
event-time is older than `Date.now() - 120000` ms. -/
def ageSweep (m : TradesStore) (now : Nat) : TradesStore :=
  m.filter (fun kv => ! decide (kv.2.timestamp < now - 120000))

/-- The guarded sweep at the top of `fetchOptionsFromREST`: the sweep only
runs when `tradesStore.size > MAX_TRADES * 0.5` (i.e. size > 50 000). -/
def refreshSweep (m : TradesStore) (now : Nat) : TradesStore :=
  if m.length > MAX_TRADES / 2 then ageSweep m now else m

/-- Deleting the oldest entry shrinks the store by one. -/
theorem dropOldest_length (m : TradesStore) : (dropOldest m).length = m.length - 1 := by
  cases m <;> simp [dropOldest]

/-- `Map.set` keeps the size when the key exists and grows it by one otherwise. -/
theorem storeSet_length (m : TradesStore) (k : Nat) (v : StoredTrade) :
    (storeSet m k v).length =
      if m.any (fun kv => kv.1 == k) then m.length else m.length + 1 := by
  unfold storeSet
  split <;> simp

/-- One `wsInsert` step preserves the size bound. -/
theorem wsInsert_length_le (m : TradesStore) (k : Nat) (v : StoredTrade)
    (h : m.length ≤ MAX_TRADES) : (wsInsert m k v).length ≤ MAX_TRADES := by
  have hs := storeSet_length m k v
  have hM : 0 < MAX_TRADES := by norm_num [MAX_TRADES]
  simp only [wsInsert]
  split
  · rw [dropOldest_length]
    split at hs <;> omega
  · rename_i hle
    push_neg at hle
    exact hle

/-- Claim C3: the trade store's size never exceeds `MAX_TRADES = 100000`
under any sequence of WebSocket inserts starting from the empty store (an
insert at capacity drops the oldest-inserted entry), and after the age sweep
that runs when the store is more than 50% full, no stored record with
event-time older than 120 seconds remains. -/
theorem tradesStore_bounded_and_sweep_removes_old :
    (∀ ops : List (Nat × StoredTrade),
      (ops.foldl (fun m kv => wsInsert m kv.1 kv.2) []).length ≤ MAX_TRADES) ∧
    (∀ (m : TradesStore) (now : Nat), MAX_TRADES / 2 < m.length →
      ∀ kv ∈ refreshSweep m now, ¬ (kv.2.timestamp < now - 120000)) := by
  constructor
  · intro ops
    suffices h : ∀ (init : TradesStore), init.length ≤ MAX_TRADES →
        (ops.foldl (fun m kv => wsInsert m kv.1 kv.2) init).length ≤ MAX_TRADES by
      exact h [] (by simp)
    induction ops with
    | nil => intro init h; simpa using h
    | cons kv rest ih =>
        intro init h
        exact ih _ (wsInsert_length_le init kv.1 kv.2 h)
  · intro m now hsize kv hkv
    unfold refreshSweep at hkv
    rw [if_pos hsize] at hkv
    unfold ageSweep at hkv
    have := List.of_mem_filter hkv
    simp only [Bool.not_eq_true', decide_eq_false_iff_not] at this
    exact this

/-- Witness for C3: a singleton insert sequence respects the bound, and a
concrete store of 50 001 records all sharing event-time 0 is over the 50%
threshold and contains no entry older than 120 s after the sweep at
`now = 100000` ms. -/
theorem tradesStore_bounded_and_sweep_removes_old_witness :
    (([((0 : Nat), StoredTrade.mk 0)].foldl (fun m kv => wsInsert m kv.1 kv.2) []).length
        ≤ MAX_TRADES) ∧
    (MAX_TRADES / 2 < (List.replicate 50001 ((0 : Nat), StoredTrade.mk 0)).length ∧
      ∀ kv ∈ refreshSweep (List.replicate 50001 ((0 : Nat), StoredTrade.mk 0)) 100000,
        ¬ (kv.2.timestamp < 100000 - 120000)) := by
  have hlen : MAX_TRADES / 2 < (List.replicate 50001 ((0 : Nat), StoredTrade.mk 0)).length := by
    rw [List.length_replicate]
    norm_num [MAX_TRADES]
  exact ⟨tradesStore_bounded_and_sweep_removes_old.1 _, hlen,
    fun kv hkv => tradesStore_bounded_and_sweep_removes_old.2 _ 100000 hlen kv hkv⟩

/-- A flow record as seen by the query engine, reduced to the fields the
default query (no filters, `sortBy = 'time'`) reads: the event-time in epoch
milliseconds (`new Date(trade.timestamp).getTime()`) and the raw premium. -/
structure QFlow where
  timestamp : Nat
  premiumRaw : ℚ
deriving DecidableEq, Repr

/-- Stable insertion into a time-descending list: the element goes before the
first strictly-older entry, after all entries at least as new.  A stable sort
is unique, so this agrees with the JS stable `Array.prototype.sort` under the
comparator `timestampB - timestampA`. -/
def insertTimeDesc (x : QFlow) : List QFlow → List QFlow
  | [] => [x]
  | y :: ys => if x.timestamp < y.timestamp then y :: insertTimeDesc x ys else x :: y :: ys

/-- `[...trades].sort((a, b) => timestampB - timestampA)`: stable sort by
event-time, newest first. -/
def sortByTimeDesc (l : List QFlow) : List QFlow :=
  l.foldr insertTimeDesc []

/-- Result wrapper of `GET /api/options-flow` (the fields the claim is about). -/
structure QueryResult where
  count : Nat
  totalCount : Nat
  page : Nat
  totalPages : Nat
  limitN : Nat
  flows : List QFlow
deriving DecidableEq, Repr

/-- The default-query pipeline of `router.get('/')` in the options-flow
route: `offset = (page-1)*limit`; filter (with no active filters only the
default `minPremium = 0` bound applies, i.e. keep unless `premiumRaw < 0`);
sort the whole filtered set by time descending; `totalCount` and
`totalPages = Math.ceil(totalCount/limit)` from the sorted set; then slice
`[offset, offset+limit)`; `count` is the length of the returned page. -/
def queryPageDefault (flows : List QFlow) (limitNum pageNum : Nat) : QueryResult :=
  let offset := (pageNum - 1) * limitNum
  let filtered := flows.filter (fun f => ! decide (f.premiumRaw < 0))
  let sorted := sortByTimeDesc filtered
  let totalCount := sorted.length
  let totalPages := (totalCount + limitNum - 1) / limitNum
  let paginated := (sorted.drop offset).take limitNum
  { count := paginated.length, totalCount := totalCount, page := pageNum,
    totalPages := totalPages, limitN := limitNum, flows := paginated }

/-- `insertTimeDesc` produces a permutation. -/
theorem insertTimeDesc_perm (x : QFlow) (l : List QFlow) :
    (insertTimeDesc x l).Perm (x :: l) := by
  induction l with
  | nil => simp [insertTimeDesc]
  | cons y ys ih =>
      unfold insertTimeDesc
      split
      · exact ((ih.cons y).trans (List.Perm.swap x y ys))
      · exact List.Perm.refl _

/-- `sortByTimeDesc` permutes its input. -/
theorem sortByTimeDesc_perm (l : List QFlow) : (sortByTimeDesc l).Perm l := by
  induction l with
  | nil => simp [sortByTimeDesc]
  | cons x xs ih =>
      have : sortByTimeDesc (x :: xs) = insertTimeDesc x (sortByTimeDesc xs) := rfl
      rw [this]
      exact (insertTimeDesc_perm x (sortByTimeDesc xs)).trans (ih.cons x)

/-- `insertTimeDesc` preserves descending order. -/
theorem insertTimeDesc_pairwise (x : QFlow) (l : List QFlow)
    (h : l.Pairwise (fun a b => b.timestamp ≤ a.timestamp)) :
    (insertTimeDesc x l).Pairwise (fun a b => b.timestamp ≤ a.timestamp) := by
  induction l with
  | nil => simp [insertTimeDesc]
  | cons y ys ih =>
      rw [List.pairwise_cons] at h
      unfold insertTimeDesc
      split
      · rename_i hxy
        rw [List.pairwise_cons]
        refine ⟨?_, ih h.2⟩
        intro a ha
        rcases List.mem_cons.mp ((insertTimeDesc_perm x ys).mem_iff.mp ha) with heq | hmem
        · rw [heq]; omega
        · exact h.1 a hmem
      · rename_i hxy
        push_neg at hxy
        rw [List.pairwise_cons]
        refine ⟨?_, List.pairwise_cons.mpr h⟩
        intro a ha
        rcases List.mem_cons.mp ha with heq | hmem
        · rw [heq]; exact hxy
        · exact le_trans (h.1 a hmem) hxy

/-- `sortByTimeDesc` sorts by event-time, newest first. -/
theorem sortByTimeDesc_pairwise (l : List QFlow) :
    (sortByTimeDesc l).Pairwise (fun a b => b.timestamp ≤ a.timestamp) := by
  induction l with
  | nil => simp [sortByTimeDesc]
  | cons x xs ih => exact insertTimeDesc_pairwise x (sortByTimeDesc xs) ih

/-- Claim C4: the query engine sorts the entire filtered set before
pagination and slices `[offset, offset+limit)`, so for a store of 25 flows
(none filtered out, since premiums are nonnegative) and a request with
`limit = 10`, `page = 2` sorted by time descending, the response has
`count = 10`, `totalCount = 25`, `totalPages = 3`, and the returned items are
positions 10–19 (the 11th through 20th newest) of the time-descending
permutation of the store. -/
theorem queryPageDefault_s7 (flows : List QFlow)
    (hlen : flows.length = 25) (hprem : ∀ f ∈ flows, 0 ≤ f.premiumRaw) :
    (queryPageDefault flows 10 2).count = 10 ∧
    (queryPageDefault flows 10 2).totalCount = 25 ∧
    (queryPageDefault flows 10 2).totalPages = 3 ∧
    (queryPageDefault flows 10 2).flows = ((sortByTimeDesc flows).drop 10).take 10 ∧
    (sortByTimeDesc flows).Pairwise (fun a b => b.timestamp ≤ a.timestamp) ∧
    (sortByTimeDesc flows).Perm flows := by
  have hfilter : flows.filter (fun f => ! decide (f.premiumRaw < 0)) = flows := by
    rw [List.filter_eq_self]
    intro a ha
    simp only [Bool.not_eq_true', decide_eq_false_iff_not, not_lt]
    exact hprem a ha
  have hslen : (sortByTimeDesc flows).length = 25 := by
    rw [(sortByTimeDesc_perm flows).length_eq, hlen]
  refine ⟨?_, ?_, ?_, ?_, sortByTimeDesc_pairwise flows, sortByTimeDesc_perm flows⟩
  · simp only [queryPageDefault, hfilter, List.length_take, List.length_drop, hslen]
    norm_num
  · simp only [queryPageDefault, hfilter, hslen]
  · simp only [queryPageDefault, hfilter, hslen]
  · simp only [queryPageDefault, hfilter]

/-- Witness for C4 at a concrete 25-flow store. -/
theorem queryPageDefault_s7_witness :
    ((List.range 25).map (fun i => QFlow.mk i 1)).length = 25 ∧
    (∀ f ∈ (List.range 25).map (fun i => QFlow.mk i 1), 0 ≤ f.premiumRaw) ∧
    (queryPageDefault ((List.range 25).map (fun i => QFlow.mk i 1)) 10 2).count = 10 := by
  have h1 : ((List.range 25).map (fun i => QFlow.mk i 1)).length = 25 := by simp
  have h2 : ∀ f ∈ (List.range 25).map (fun i => QFlow.mk i 1), (0 : ℚ) ≤ f.premiumRaw := by
    intro f hf
    simp only [List.mem_map] at hf
    obtain ⟨i, -, rfl⟩ := hf
    norm_num
  exact ⟨h1, h2, (queryPageDefault_s7 _ h1 h2).1⟩

/-- `'call' | 'put'` as used by `calculateSingleGEX` in `routes/gex.js`. -/
inductive CPType where
  | call
  | put
deriving DecidableEq, Repr

/-- A raw vendor contract as read by the per-strike GEX loops in
`routes/gex.js`: the fields consulted by the IV resolution chain
(`greeks.mid_iv || greeks.implied_volatility || implied_volatility ||
impliedVolatility || iv || 0.3`) and the OI chain (`open_interest ||
openInterest || oi || 0`), plus the vendor-supplied `greeks.gamma`, which the
route never reads.  `none` models an absent field (a JS `NaN` behaves like a
present falsy-on-comparison value; it is not representable in `ℚ` and is
treated as absent here). -/
structure GexContract where
  vendorGamma : Option ℚ
  midIV : Option ℚ
  greeksIV : Option ℚ
  ivTop : Option ℚ
  ivCamel : Option ℚ
  ivShort : Option ℚ
  oiSnake : Option ℚ
  oiCamel : Option ℚ
  oiShort : Option ℚ
deriving DecidableEq, Repr

/-- One step of a JS `a || rest` chain on an optional number: a present
nonzero value short-circuits, `0` and absent fall through. -/
def jsOrQ (o : Option ℚ) (rest : ℚ) : ℚ :=
  match o with
  | none => rest
  | some x => if x = 0 then rest else x

/-- The IV resolution chain of the per-strike loops (default 0.3). -/
def resolveIV (c : GexContract) : ℚ :=
  jsOrQ c.midIV (jsOrQ c.greeksIV (jsOrQ c.ivTop (jsOrQ c.ivCamel (jsOrQ c.ivShort (3/10)))))

/-- The OI resolution chain of the per-strike loops (default 0). -/
def resolveOI (c : GexContract) : ℚ :=
  jsOrQ c.oiSnake (jsOrQ c.oiCamel (jsOrQ c.oiShort 0))

/-- `calculateSingleGEX(gamma, openInterest, spotPrice, optionType)` from
`routes/gex.js`: `GEX = gamma × OI × 100 × spot²`, calls positive, puts
negative. -/
def calculateSingleGEX (gamma openInterest spotPrice : ℚ) (optionType : CPType) : ℚ :=
  let multiplier : ℚ := if optionType = CPType.call then 1 else -1
  gamma * openInterest * 100 * spotPrice ^ 2 * multiplier

/-- Result record of `calculateStrikeGEX`. -/
structure StrikeGEXData where
  totalGEX : ℚ
  callGEX : ℚ
  putGEX : ℚ
  netGEX : ℚ
deriving DecidableEq, Repr

/-- `calculateStrikeGEX(strike, callGamma, putGamma, callOI, putOI, spotPrice)`
from `routes/gex.js` (the `strike` argument is unused by the computation,
exactly as in the source). -/
def calculateStrikeGEX (strike callGamma putGamma callOI putOI spotPrice : ℚ) :
    StrikeGEXData :=
  let callGEX := calculateSingleGEX callGamma callOI spotPrice CPType.call
  let putGEX := calculateSingleGEX putGamma putOI spotPrice CPType.put
  ⟨|callGEX| + |putGEX|, callGEX, putGEX, callGEX + putGEX⟩

/-- The `callGamma += greeks.gamma * oi` accumulator of the per-strike loop.
`bsGamma` stands for `calculateAllGreeks(S, K, T, r, iv, ·).gamma`, the
Black–Scholes gamma as a function of the resolved IV (spot, strike, time and
rate are fixed per strike, and the source's gamma formula does not depend on
the call/put flag); it is kept abstract because it is a transcendental
floating-point function whose value is irrelevant to the aggregation shape. -/
def gammaOISum (bsGamma : ℚ → ℚ) (cs : List GexContract) : ℚ :=
  (cs.map (fun c => bsGamma (resolveIV c) * resolveOI c)).sum

/-- The `callOI += oi` accumulator of the per-strike loop. -/
def oiSum (cs : List GexContract) : ℚ :=
  (cs.map resolveOI).sum

/-- The `callGEX += calculateSingleGEX(greeks.gamma, oi, spot, type)`
accumulator of the per-strike loop. -/
def gexSum (bsGamma : ℚ → ℚ) (spot : ℚ) (cp : CPType) (cs : List GexContract) : ℚ :=
  (cs.map (fun c => calculateSingleGEX (bsGamma (resolveIV c)) (resolveOI c) spot cp)).sum

/-- The per-strike entry pushed onto `strikeGEX` by `router.get('/:ticker')`. -/
structure StrikeRow where
  callGEX : ℚ
  putGEX : ℚ
  netGEX : ℚ
  callOI : ℚ
  putOI : ℚ
deriving DecidableEq, Repr

/-- The per-strike aggregation of `router.get('/:ticker')` in
`routes/gex.js` (lines 334–431): accumulate `callGamma`/`callOI`/`callGEX`
over the calls and `putGamma`/`putOI`/`putGEX` over the puts, form the
OI-weighted average gammas, and take `netGEX` from `calculateStrikeGEX` on
those averages. -/
def strikeRow (bsGamma : ℚ → ℚ) (calls puts : List GexContract) (strike spot : ℚ) :
    StrikeRow :=
  let callOI := oiSum calls
  let putOI := oiSum puts
  let avgCallGamma := if callOI > 0 then gammaOISum bsGamma calls / callOI else 0
  let avgPutGamma := if putOI > 0 then gammaOISum bsGamma puts / putOI else 0
  let d := calculateStrikeGEX strike avgCallGamma avgPutGamma callOI putOI spot
  { callGEX := gexSum bsGamma spot CPType.call calls
    putGEX := gexSum bsGamma spot CPType.put puts
    netGEX := d.netGEX
    callOI := callOI
    putOI := putOI }

/-- The per-strike totals as the spec sentence describes them: drop every
contract whose vendor `greeks.gamma` is missing or whose OI is 0, and use the
vendor gamma (never an IV-derived one) in `gamma·OI·100·S²`.  This definition
follows the spec's words, for comparison with `strikeRow`, which follows the
source. -/
def specStrikeRow (calls puts : List GexContract) (strike spot : ℚ) : StrikeRow :=
  let keep := fun c => c.vendorGamma.isSome && ! decide (resolveOI c = 0)
  let kc := calls.filter keep
  let kp := puts.filter keep
  let callGEX := (kc.map (fun c => c.vendorGamma.getD 0 * resolveOI c * 100 * spot ^ 2)).sum
  let putGEX := -(kp.map (fun c => c.vendorGamma.getD 0 * resolveOI c * 100 * spot ^ 2)).sum
  { callGEX := callGEX, putGEX := putGEX, netGEX := callGEX + putGEX,
    callOI := (kc.map resolveOI).sum, putOI := (kp.map resolveOI).sum }

/-- Replace the vendor `greeks.gamma` field, leaving all other fields alone. -/
def updVendorGamma (g : Option ℚ → Option ℚ) (c : GexContract) : GexContract :=
  { c with vendorGamma := g c.vendorGamma }

/-- A call contract with vendor gamma missing, vendor IV 0.5 and OI 100. -/
def c1Contract : GexContract :=
  ⟨none, some (1/2), none, none, none, none, some 100, none, none⟩

/-- Claim C1, counterexample: the per-strike totals of the source do not
exclude contracts whose vendor `greeks.gamma` is missing.  For a strike with
the single call `c1Contract` (vendor gamma missing, OI 100) the source's
`callOI` total is 100, while under the claimed exclusion rule it would be 0 —
whatever Black–Scholes gamma function is plugged in. -/
theorem gexAggregation_drops_nothing :
    ¬ ∀ (bsGamma : ℚ → ℚ) (calls puts : List GexContract) (strike spot : ℚ),
        strikeRow bsGamma calls puts strike spot = specStrikeRow calls puts strike spot := by
  intro h
  have h2 := congrArg StrikeRow.callOI (h (fun _ => 0) [c1Contract] [] 650 500)
  norm_num [strikeRow, specStrikeRow, oiSum, resolveOI, jsOrQ, c1Contract] at h2

/-- Sums over the per-strike loop ignore contracts whose resolved OI is 0. -/
theorem sum_map_filter_oi_ne_zero (f : GexContract → ℚ)
    (h0 : ∀ c, resolveOI c = 0 → f c = 0) (l : List GexContract) :
    ((l.filter (fun c => ! decide (resolveOI c = 0))).map f).sum = (l.map f).sum := by
  induction l with
  | nil => rfl
  | cons c cs ih =>
      by_cases hc : resolveOI c = 0
      · simp [List.filter_cons, hc, h0 c hc, ih]
      · simp [List.filter_cons, hc, ih]

/-- Claim C1, amended: in the per-strike GEX totals of `routes/gex.js`,
(1) the vendor-supplied `greeks.gamma` field is never consulted — arbitrarily
rewriting it on every contract leaves the totals unchanged; (2) contracts
with resolved OI 0 contribute nothing — filtering them out leaves the totals
unchanged (so the OI-0 half of the exclusion rule holds as a vacuous
contribution, not as a drop); and (3) the `callGEX` total is
`Σ bsGamma(resolvedIV)·OI·100·S²` over all calls: the gamma entering the
totals is always derived from the resolved implied volatility (vendor IV
fields with default 0.3) via Black–Scholes, never taken from `greeks.gamma`. -/
theorem gexAggregation_uses_iv_gamma (bsGamma : ℚ → ℚ) (g : Option ℚ → Option ℚ)
    (calls puts : List GexContract) (strike spot : ℚ) :
    strikeRow bsGamma (calls.map (updVendorGamma g)) (puts.map (updVendorGamma g))
        strike spot = strikeRow bsGamma calls puts strike spot ∧
    strikeRow bsGamma (calls.filter (fun c => ! decide (resolveOI c = 0)))
        (puts.filter (fun c => ! decide (resolveOI c = 0))) strike spot =
      strikeRow bsGamma calls puts strike spot ∧
    (strikeRow bsGamma calls puts strike spot).callGEX =
      (calls.map (fun c => bsGamma (resolveIV c) * resolveOI c * 100 * spot ^ 2)).sum := by
  have hIV : ∀ c, resolveIV (updVendorGamma g c) = resolveIV c := fun _ => rfl
  have hOI : ∀ c, resolveOI (updVendorGamma g c) = resolveOI c := fun _ => rfl
  refine ⟨?_, ?_, ?_⟩
  · simp only [strikeRow, gammaOISum, oiSum, gexSum, List.map_map, Function.comp_def,
      hIV, hOI]
  · have hgam : ∀ cs, gammaOISum bsGamma (cs.filter (fun c => ! decide (resolveOI c = 0))) =
        gammaOISum bsGamma cs := by
      intro cs
      exact sum_map_filter_oi_ne_zero _ (fun c hc => by rw [hc, mul_zero]) cs
    have hoi : ∀ cs, oiSum (cs.filter (fun c => ! decide (resolveOI c = 0))) = oiSum cs := by
      intro cs
      exact sum_map_filter_oi_ne_zero _ (fun c hc => hc) cs
    have hgex : ∀ cp cs, gexSum bsGamma spot cp (cs.filter (fun c => ! decide (resolveOI c = 0))) =
        gexSum bsGamma spot cp cs := by
      intro cp cs
      refine sum_map_filter_oi_ne_zero _ (fun c hc => ?_) cs
      rw [hc]
      simp only [calculateSingleGEX]
      ring
    simp only [strikeRow, hgam, hoi, hgex]
  · simp only [strikeRow, gexSum, calculateSingleGEX]
    simp

/-- Closed form of the per-strike `netGEX`: the OI-weighted average gammas
recombined by `calculateStrikeGEX`. -/
theorem strikeRow_netGEX_eq (bsGamma : ℚ → ℚ) (calls puts : List GexContract)
    (strike spot : ℚ) :
    (strikeRow bsGamma calls puts strike spot).netGEX =
      (if oiSum calls > 0 then gammaOISum bsGamma calls / oiSum calls else 0) *
        oiSum calls * 100 * spot ^ 2 -
      (if oiSum puts > 0 then gammaOISum bsGamma puts / oiSum puts else 0) *
        oiSum puts * 100 * spot ^ 2 := by
  simp only [strikeRow, calculateStrikeGEX, calculateSingleGEX]
  norm_num
  rw [if_neg (show ¬ CPType.put = CPType.call by decide)]
  ring

/-- A call contract with vendor IV 0.5 and OI 100 (for the C7 witness). -/
def c7Contract : GexContract :=
  ⟨some (1/50), some (1/2), none, none, none, none, some 100, none, none⟩

/-- Claim C7: `calculateSingleGEX` is `gamma·OI·100·S²` for calls and its
negation for puts; a single call with gamma 0.02, OI 100, spot 500 gives
`callGEX = netGEX = 50 000 000`; and the per-strike aggregation gives
`netGEX ≥ 0` for a strike with only calls and `netGEX ≤ 0` for a strike with
only puts, for any nonnegative gamma function and nonnegative resolved OI. -/
theorem gexSignConvention :
    (∀ g oi S : ℚ, calculateSingleGEX g oi S CPType.call = g * oi * 100 * S ^ 2 ∧
      calculateSingleGEX g oi S CPType.put = -(g * oi * 100 * S ^ 2)) ∧
    calculateSingleGEX (2/100) 100 500 CPType.call = 50000000 ∧
    (calculateStrikeGEX 650 (2/100) 0 100 0 500).callGEX = 50000000 ∧
    (calculateStrikeGEX 650 (2/100) 0 100 0 500).netGEX = 50000000 ∧
    (∀ (bsGamma : ℚ → ℚ) (calls : List GexContract) (strike spot : ℚ),
      (∀ x, 0 ≤ bsGamma x) → (∀ c ∈ calls, 0 ≤ resolveOI c) →
      0 ≤ (strikeRow bsGamma calls [] strike spot).netGEX) ∧
    (∀ (bsGamma : ℚ → ℚ) (puts : List GexContract) (strike spot : ℚ),
      (∀ x, 0 ≤ bsGamma x) → (∀ c ∈ puts, 0 ≤ resolveOI c) →
      (strikeRow bsGamma [] puts strike spot).netGEX ≤ 0) := by
  have hsum : ∀ (bsGamma : ℚ → ℚ) (cs : List GexContract), (∀ x, 0 ≤ bsGamma x) →
      (∀ c ∈ cs, 0 ≤ resolveOI c) → 0 ≤ gammaOISum bsGamma cs := by
    intro bsGamma cs hg hoi
    refine List.sum_nonneg ?_
    intro a ha
    obtain ⟨c, hc, rfl⟩ := List.mem_map.mp ha
    exact mul_nonneg (hg _) (hoi c hc)
  have h0 : oiSum ([] : List GexContract) = 0 := rfl
  have hnet : ∀ (bsGamma : ℚ → ℚ) (cs : List GexContract) (strike spot : ℚ),
      (∀ x, 0 ≤ bsGamma x) → (∀ c ∈ cs, 0 ≤ resolveOI c) →
      0 ≤ (strikeRow bsGamma cs [] strike spot).netGEX := by
    intro bsGamma cs strike spot hg hoi
    have hnn := hsum bsGamma cs hg hoi
    rw [strikeRow_netGEX_eq, h0, if_neg (show ¬ (0:ℚ) > 0 by norm_num)]
    by_cases hpos : oiSum cs > 0
    · rw [if_pos hpos, div_mul_cancel₀ _ (ne_of_gt hpos)]
      have hx : (0 : ℚ) ≤ gammaOISum bsGamma cs * 100 * spot ^ 2 :=
        mul_nonneg (mul_nonneg hnn (by norm_num)) (sq_nonneg spot)
      linarith
    · rw [if_neg hpos]
      norm_num
  refine ⟨?_, ?_, ?_, ?_, hnet, ?_⟩
  · intro g oi S
    constructor <;> simp [calculateSingleGEX]
  · norm_num [calculateSingleGEX]
  · norm_num [calculateStrikeGEX, calculateSingleGEX]
  · norm_num [calculateStrikeGEX, calculateSingleGEX]
  · intro bsGamma puts strike spot hg hoi
    have hnn := hsum bsGamma puts hg hoi
    rw [strikeRow_netGEX_eq, h0, if_neg (show ¬ (0:ℚ) > 0 by norm_num)]
    by_cases hpos : oiSum puts > 0
    · rw [if_pos hpos, div_mul_cancel₀ _ (ne_of_gt hpos)]
      have hx : (0 : ℚ) ≤ gammaOISum bsGamma puts * 100 * spot ^ 2 :=
        mul_nonneg (mul_nonneg hnn (by norm_num)) (sq_nonneg spot)
      linarith
    · rw [if_neg hpos]
      norm_num

/-- Witness for C7: the sign bounds applied to a concrete one-call strike
with gamma function constantly 0.02. -/
theorem gexSignConvention_witness :
    (∀ x : ℚ, (0 : ℚ) ≤ (fun _ : ℚ => (1 : ℚ)/50) x) ∧
    (∀ c ∈ [c7Contract], 0 ≤ resolveOI c) ∧
    0 ≤ (strikeRow (fun _ : ℚ => (1 : ℚ)/50) [c7Contract] [] 650 500).netGEX ∧
    (strikeRow (fun _ : ℚ => (1 : ℚ)/50) [] [c7Contract] 650 500).netGEX ≤ 0 := by
  have hg : ∀ x : ℚ, (0 : ℚ) ≤ (fun _ : ℚ => (1 : ℚ)/50) x := fun _ => by norm_num
  have hoi : ∀ c ∈ [c7Contract], (0 : ℚ) ≤ resolveOI c := by
    intro c hc
    simp only [List.mem_singleton] at hc
    subst hc
    norm_num [resolveOI, jsOrQ, c7Contract]
  exact ⟨hg, hoi,
    (gexSignConvention.2.2.2.2.1 _ [c7Contract] 650 500 hg hoi),
    (gexSignConvention.2.2.2.2.2 _ [c7Contract] 650 500 hg hoi)⟩

/-- `const RISK_FREE_RATE = 0.045` from `routes/gex.js`, the rate passed to
every `calculateAllGreeks` call of the GEX engine. -/
def RISK_FREE_RATE : ℚ := 45/1000

/-- `const r = 0.05` at the IV-inversion call site inside
`processOptionsTrade` (live WebSocket path) of the options-flow route. -/
def processOptionsTradeIVRate : ℚ := 5/100

/-- `const r = 0.05` at the IV-revalidation call site inside the
page-enrichment loop of `router.get('/')` of the options-flow route. -/
def enrichRecalcIVRate : ℚ := 5/100

/-- `const r = 0.05` at the missing-IV call site inside the page-enrichment
loop of `router.get('/')` of the options-flow route. -/
def enrichMissingIVRate : ℚ := 5/100

/-- `const r = 0.05` at the IV call site inside `processContracts`
(REST backfill path) of the options-flow route. -/
def processContractsIVRate : ℚ := 5/100

/-- `const r = 0.05` at the IV call site inside `buildTradesForTickerSearch`
of the options-flow route. -/
def tickerSearchIVRate : ℚ := 5/100

/-- Claim C9, counterexample: not every Black–Scholes / implied-volatility
computation uses r = 4.5% — the IV inversion in the live WebSocket path
passes a hard-coded 5%. -/
theorem ivRate_differs_from_gex_rate : processOptionsTradeIVRate ≠ RISK_FREE_RATE := by
  norm_num [processOptionsTradeIVRate, RISK_FREE_RATE]

/-- Claim C9, amended: the GEX engine's Black–Scholes computations use the
process constant r = 0.045, while every implied-volatility inversion in the
options-flow route (live WebSocket path, both page-enrichment paths, REST
backfill, ticker search) uses a hard-coded local r = 0.05. -/
theorem riskFreeRates_by_call_site :
    RISK_FREE_RATE = 9/200 ∧
    processOptionsTradeIVRate = 1/20 ∧
    enrichRecalcIVRate = 1/20 ∧
    enrichMissingIVRate = 1/20 ∧
    processContractsIVRate = 1/20 ∧
    tickerSearchIVRate = 1/20 := by
  norm_num [RISK_FREE_RATE, processOptionsTradeIVRate, enrichRecalcIVRate,
    enrichMissingIVRate, processContractsIVRate, tickerSearchIVRate]

/-- The `[CP]` character class of the anchor regex in `parseOptionSymbol`. -/
def isCP (c : Char) : Bool := c = 'C' || c = 'P'

/-- `symbol.replace(/^O[:.]/,'')`: strip a leading `"O:"` or `"O."`. -/
def stripSymPre (s : List Char) : List Char :=
  match s with
  | 'O' :: ':' :: rest => rest
  | 'O' :: '.' :: rest => rest
  | _ => s

/-- Position `p` matches the regex `[CP](?=\d{8}$)`: a `C` or `P` followed by
exactly the terminating eight digits. -/
def anchorAt (s : List Char) (p : Nat) : Bool :=
  isCP (s.getD p ' ') && (s.drop (p+1)).length == 8 && (s.drop (p+1)).all Char.isDigit

/-- Left-to-right scan for the first regex match, as
`cleanSymbol.match(/[CP](?=\d{8}$)/)` performs it. -/
def firstAnchorFrom (s : List Char) (i : Nat) : Option Nat :=
  if h : i < s.length then
    if anchorAt s i then some i else firstAnchorFrom s (i+1)
  else none
termination_by s.length - i

/-- First match position of the anchor regex in the whole string. -/
def firstAnchor (s : List Char) : Option Nat := firstAnchorFrom s 0

/-- Downward scan of `String.prototype.lastIndexOf` starting at index `i`. -/
def lastIdxFrom (s : List Char) (c : Char) : Nat → Option Nat
  | 0 => if s.getD 0 ' ' = c then some 0 else none
  | i+1 => if s.getD (i+1) ' ' = c then some (i+1) else lastIdxFrom s c i

/-- `cleanSymbol.lastIndexOf(c)`; `none` models the JS result `-1`. -/
def lastIndexOf (s : List Char) (c : Char) : Option Nat :=
  if s.length = 0 then none else lastIdxFrom s c (s.length - 1)

/-- Numeric value of a decimal digit character. -/
def digitVal (c : Char) : Nat := c.toNat - '0'.toNat

/-- Value of a decimal digit string. -/
def digitsVal (l : List Char) : Nat := l.foldl (fun a c => a * 10 + digitVal c) 0

/-- `parseInt` on a decimal string: the value of the longest digit prefix,
`none` (JS `NaN`) when there is no leading digit. -/
def jsParseInt (l : List Char) : Option Nat :=
  let ds := l.takeWhile Char.isDigit
  if ds.isEmpty then none else some (digitsVal ds)

/-- The object returned by `parseOptionSymbol`.  The source stores the
expiration as `new Date(2000 + yy, mm - 1, dd)` (a zero-based JS month
index), which denotes the civil date `(2000 + yy, mm, dd)` recorded here;
`none` in a numeric field models a `NaN` component.
`strike = parseInt(strikeStr) / 1000`.  The `MM/DD` display string
`expiration` is omitted. -/
structure ParsedOption where
  ticker : List Char
  expYear : Option Nat
  expMonth : Option Nat
  expDay : Option Nat
  strike : Option ℚ
  kind : OptKind
deriving DecidableEq, Repr

/-- The field extraction shared by both methods of `parseOptionSymbol`:
`ticker = substring(0, cpIndex-6)`, `dateStr = substring(cpIndex-6, cpIndex)`
split into two-digit year/month/day, `strike = parseInt(substring(cpIndex+1))
/ 1000` (JS `substring` clamps negative starts to 0, exactly as truncated
`Nat` subtraction does). -/
def extractAt (s : List Char) (cpIndex : Nat) (kind : OptKind) : ParsedOption :=
  let dateStr := (s.take cpIndex).drop (cpIndex - 6)
  { ticker := s.take (cpIndex - 6)
    expYear := (jsParseInt (dateStr.take 2)).map (fun n => 2000 + n)
    expMonth := jsParseInt ((dateStr.drop 2).take 2)
    expDay := jsParseInt ((dateStr.drop 4).take 2)
    strike := (jsParseInt (s.drop (cpIndex + 1))).map (fun n => (n : ℚ) / 1000)
    kind := kind }

/-- `parseOptionSymbol(symbol)` from `utils/optionsCalculations.js`
(BUG #1 FIX).  Method 1: regex-anchor the option-type letter before the
terminating 8-digit strike, locate it with `lastIndexOf`, extract.
Method 2 (when the regex fails): fixed offset 9 from the end.  The
`lastIndexOf = none` branch is unreachable when the regex matched, since the
matched character occurs in the string. -/
def parseOptionSymbol (symbol : List Char) : Option ParsedOption :=
  let s := stripSymPre symbol
  match firstAnchor s with
  | some p =>
      let mc := s.getD p ' '
      let kind := if mc = 'P' then OptKind.PUT else OptKind.CALL
      match lastIndexOf s mc with
      | some cpIndex => some (extractAt s cpIndex kind)
      | none => none
  | none =>
      if s.length < 9 then none
      else
        let cpIndex := s.length - 9
        let cpChar := s.getD cpIndex ' '
        if cpChar = 'C' ∨ cpChar = 'P' then
          some (extractAt s cpIndex (if cpChar = 'P' then OptKind.PUT else OptKind.CALL))
        else none

/-- The decimal digit character for `n` (`n ≥ 9` maps to `'9'`; only
`n < 10` is ever used). -/
def digitChar (n : Nat) : Char :=
  match n with
  | 0 => '0'
  | 1 => '1'
  | 2 => '2'
  | 3 => '3'
  | 4 => '4'
  | 5 => '5'
  | 6 => '6'
  | 7 => '7'
  | 8 => '8'
  | _ => '9'

/-- `n` zero-padded to exactly `k` decimal digits. -/
def natToDigits : Nat → Nat → List Char
  | 0, _ => []
  | k+1, n => natToDigits k (n / 10) ++ [digitChar (n % 10)]

/-- The `C`/`P` letter of an option kind. -/
def kindChar : OptKind → Char
  | OptKind.CALL => 'C'
  | OptKind.PUT => 'P'

/-- The OCC symbol of §6.4: `"O:" + underlying + YYMMDD + C|P +
strike·1000 zero-padded to 8 digits` (the strike is given in thousandths). -/
def mkOCCSymbol (und : List Char) (yy mm dd : Nat) (k : OptKind) (strikeMilli : Nat) :
    List Char :=
  'O' :: ':' :: (und ++ (natToDigits 2 yy ++ (natToDigits 2 mm ++ (natToDigits 2 dd ++
    (kindChar k :: natToDigits 8 strikeMilli)))))

/-- `digitChar` always yields a digit character. -/
theorem digitChar_isDigit (n : Nat) : (digitChar n).isDigit = true := by
  unfold digitChar
  split <;> decide

/-- `digitChar` inverts `digitVal` on single digits. -/
theorem digitVal_digitChar (n : Nat) (h : n < 10) : digitVal (digitChar n) = n := by
  interval_cases n <;> decide

/-- `natToDigits k` always produces `k` characters. -/
theorem natToDigits_length (k n : Nat) : (natToDigits k n).length = k := by
  induction k generalizing n with
  | zero => rfl
  | succ k ih => simp [natToDigits, ih]

/-- `natToDigits` produces only digit characters. -/
theorem natToDigits_all_digits (k n : Nat) : (natToDigits k n).all Char.isDigit = true := by
  induction k generalizing n with
  | zero => rfl
  | succ k ih => simp [natToDigits, ih, digitChar_isDigit]

/-- Appending one digit multiplies the value by ten and adds the digit. -/
theorem digitsVal_append_singleton (l : List Char) (c : Char) :
    digitsVal (l ++ [c]) = digitsVal l * 10 + digitVal c := by
  simp [digitsVal, List.foldl_append]

/-- `digitsVal` inverts `natToDigits` below the width bound. -/
theorem digitsVal_natToDigits (k n : Nat) (h : n < 10 ^ k) :
    digitsVal (natToDigits k n) = n := by
  induction k generalizing n with
  | zero =>
      rw [pow_zero, Nat.lt_one_iff] at h
      subst h
      rfl
  | succ k ih =>
      have h1 : n / 10 < 10 ^ k := by
        rw [Nat.div_lt_iff_lt_mul (by norm_num)]
        calc n < 10 ^ (k+1) := h
        _ = 10 ^ k * 10 := by ring
      rw [natToDigits, digitsVal_append_singleton, ih _ h1,
        digitVal_digitChar _ (Nat.mod_lt n (by norm_num))]
      omega

/-- `takeWhile` keeps a list all of whose elements satisfy the predicate. -/
theorem takeWhile_of_all (p : Char → Bool) (l : List Char) (h : l.all p = true) :
    l.takeWhile p = l := by
  induction l with
  | nil => rfl
  | cons c cs ih =>
      simp only [List.all_cons, Bool.and_eq_true] at h
      simp [List.takeWhile_cons, h.1, ih h.2]

/-- `parseInt` recovers the value of a zero-padded digit string. -/
theorem jsParseInt_natToDigits (k n : Nat) (hk : 0 < k) (h : n < 10 ^ k) :
    jsParseInt (natToDigits k n) = some n := by
  unfold jsParseInt
  rw [takeWhile_of_all _ _ (natToDigits_all_digits k n)]
  rw [if_neg (by
    intro hempty
    have := natToDigits_length k n
    rw [List.isEmpty_iff] at hempty
    rw [hempty] at this
    simp at this
    omega)]
  rw [digitsVal_natToDigits k n h]

/-- A digit character is not `C` or `P`. -/
theorem isCP_of_isDigit (c : Char) (h : c.isDigit = true) : isCP c = false := by
  unfold isCP
  by_contra hcp
  rw [Bool.not_eq_false, Bool.or_eq_true, decide_eq_true_eq, decide_eq_true_eq] at hcp
  rcases hcp with rfl | rfl <;> simp [Char.isDigit] at h

/-- The regex scan finds the unique anchor position. -/
theorem firstAnchorFrom_eq_some (s : List Char) (m : Nat) (hm : m < s.length)
    (h1 : anchorAt s m = true) (h2 : ∀ j, j < m → anchorAt s j = false) :
    ∀ d i, m - i = d → i ≤ m → firstAnchorFrom s i = some m := by
  intro d
  induction d with
  | zero =>
      intro i hd him
      have : i = m := by omega
      subst this
      rw [firstAnchorFrom]
      rw [dif_pos hm, if_pos h1]
  | succ d ih =>
      intro i hd him
      have him2 : i < m := by omega
      rw [firstAnchorFrom]
      rw [dif_pos (by omega), if_neg ?_]
      · exact ih (i+1) (by omega) (by omega)
      · rw [h2 i him2]
        exact Bool.false_ne_true

/-- The downward `lastIndexOf` scan finds the last occurrence. -/
theorem lastIdxFrom_eq_some (s : List Char) (c : Char) (m : Nat)
    (h1 : s.getD m ' ' = c) :
    ∀ i, m ≤ i → (∀ j, m < j → j ≤ i → s.getD j ' ' ≠ c) → lastIdxFrom s c i = some m := by
  intro i
  induction i with
  | zero =>
      intro him h2
      have : m = 0 := by omega
      subst this
      rw [lastIdxFrom, if_pos h1]
  | succ i ih =>
      intro him h2
      rcases Nat.eq_or_lt_of_le him with heq | hlt
      · subst heq
        rw [lastIdxFrom, if_pos h1]
      · rw [lastIdxFrom, if_neg (h2 (i+1) (by omega) (by omega))]
        exact ih (by omega) (fun j hj1 hj2 => h2 j hj1 (by omega))

/-- `getD` after `drop` indexes into the original list. -/
theorem getD_drop_eq (l : List Char) (m n : Nat) (d : Char) :
    (l.drop m).getD n d = l.getD (m + n) d := by
  rw [List.getD_eq_getD_get?, List.getD_eq_getD_get?]
  congr 1
  rw [List.get?_eq_getElem?, List.get?_eq_getElem?]
  exact List.getElem?_drop l m n

/-- The kind letter is in the `[CP]` class. -/
theorem isCP_kindChar (k : OptKind) : isCP (kindChar k) = true := by
  cases k <;> rfl

/-- The general round trip: parsing a constructed OCC symbol recovers the
tuple.  The hypotheses spell out validity of the input tuple; the proof uses
only the positional structure. -/
theorem parse_mkOCC_roundTrip (und : List Char) (yy mm dd : Nat) (k : OptKind)
    (strikeMilli : Nat) (hu : und ≠ []) (hAZ : ∀ c ∈ und, 'A' ≤ c ∧ c ≤ 'Z')
    (hyy : yy < 100) (hmm1 : 1 ≤ mm) (hmm2 : mm ≤ 12) (hdd1 : 1 ≤ dd) (hdd2 : dd ≤ 31)
    (hsm : strikeMilli < 10 ^ 8) :
    parseOptionSymbol (mkOCCSymbol und yy mm dd k strikeMilli) =
      some ⟨und, some (2000 + yy), some mm, some dd,
        some ((strikeMilli : ℚ) / 1000), k⟩ := by
  have hmm' : mm < 100 := by omega
  have hdd' : dd < 100 := by omega
  set d1 := natToDigits 2 yy with hd1
  set d2 := natToDigits 2 mm with hd2
  set d3 := natToDigits 2 dd with hd3
  set S8 := natToDigits 8 strikeMilli with hS8
  set kc := kindChar k with hkc
  set B : List Char := und ++ (d1 ++ (d2 ++ (d3 ++ (kc :: S8)))) with hBdef
  have hl1 : d1.length = 2 := natToDigits_length 2 yy
  have hl2 : d2.length = 2 := natToDigits_length 2 mm
  have hl3 : d3.length = 2 := natToDigits_length 2 dd
  have hlS : S8.length = 8 := natToDigits_length 8 strikeMilli
  have hBlen : B.length = und.length + 15 := by
    simp [hBdef, hl1, hl2, hl3, hlS]
  have hstrip : stripSymPre (mkOCCSymbol und yy mm dd k strikeMilli) = B := rfl
  have hdropU : B.drop und.length = d1 ++ (d2 ++ (d3 ++ (kc :: S8))) := List.drop_left _ _
  have hdrop6 : B.drop (und.length + 6) = kc :: S8 := by
    have e2 : (d1 ++ (d2 ++ (d3 ++ (kc :: S8)))).drop 2 = d2 ++ (d3 ++ (kc :: S8)) :=
      List.drop_left' hl1
    have e3 : (d2 ++ (d3 ++ (kc :: S8))).drop 2 = d3 ++ (kc :: S8) := List.drop_left' hl2
    have e4 : (d3 ++ (kc :: S8)).drop 2 = kc :: S8 := List.drop_left' hl3
    have : B.drop (und.length + 6) = (((B.drop und.length).drop 2).drop 2).drop 2 := by
      rw [List.drop_drop, List.drop_drop, List.drop_drop]
    rw [this, hdropU, e2, e3, e4]
  have hdrop7 : B.drop (und.length + 7) = S8 := by
    have : B.drop (und.length + 7) = (B.drop (und.length + 6)).drop 1 := by
      rw [List.drop_drop]
    rw [this, hdrop6]
    rfl
  have hgetp : B.getD (und.length + 6) ' ' = kc := by
    have : B.getD (und.length + 6) ' ' = (B.drop (und.length + 6)).getD 0 ' ' := by
      rw [getD_drop_eq]
    rw [this, hdrop6, List.getD_cons_zero]
  have hbelow : ∀ j, j < und.length + 6 → anchorAt B j = false := by
    intro j hj
    have hne : (B.drop (j+1)).length ≠ 8 := by
      rw [List.length_drop, hBlen]
      omega
    have h8 : ((B.drop (j+1)).length == 8) = false := by
      simpa using hne
    unfold anchorAt
    rw [h8]
    simp
  have hanchor : anchorAt B (und.length + 6) = true := by
    have h7 : und.length + 6 + 1 = und.length + 7 := rfl
    have hall : S8.all Char.isDigit = true := by
      rw [hS8]
      exact natToDigits_all_digits 8 strikeMilli
    unfold anchorAt
    rw [hgetp, h7, hdrop7, hkc, isCP_kindChar, hlS, hall]
    rfl
  have hplt : und.length + 6 < B.length := by omega
  have hfa : firstAnchor B = some (und.length + 6) :=
    firstAnchorFrom_eq_some B (und.length + 6) hplt hanchor (fun j hj => hbelow j hj)
      (und.length + 6) 0 rfl (Nat.zero_le _)
  have hS8digit : ∀ t, t < 8 → S8.getD t ' ' ≠ kc := by
    intro t ht heq
    have hmem : S8.getD t ' ' ∈ S8 := by
      rw [List.getD_eq_getElem S8 ' ' (by omega)]
      exact List.getElem_mem _
    have hall := natToDigits_all_digits 8 strikeMilli
    rw [List.all_eq_true] at hall
    have hdig : (S8.getD t ' ').isDigit = true := hall _ hmem
    have hcp := isCP_of_isDigit _ hdig
    rw [heq, hkc, isCP_kindChar] at hcp
    simp at hcp
  have habove : ∀ j, und.length + 6 < j → j ≤ B.length - 1 → B.getD j ' ' ≠ kc := by
    intro j hj1 hj2
    have hkey := getD_drop_eq B (und.length + 7) (j - (und.length + 7)) ' '
    rw [hdrop7] at hkey
    have harith : und.length + 7 + (j - (und.length + 7)) = j := by omega
    rw [harith] at hkey
    rw [← hkey]
    exact hS8digit _ (by rw [hBlen] at hj2; omega)
  have hli : lastIndexOf B kc = some (und.length + 6) := by
    unfold lastIndexOf
    rw [if_neg (by omega)]
    exact lastIdxFrom_eq_some B kc (und.length + 6) hgetp (B.length - 1) (by omega)
      (fun j hj1 hj2 => habove j hj1 hj2)
  have htick : B.take (und.length + 6 - 6) = und := by
    have : und.length + 6 - 6 = und.length := by omega
    rw [this, hBdef]
    exact List.take_left _ _
  have htake6 : (d1 ++ (d2 ++ (d3 ++ (kc :: S8)))).take 6 = d1 ++ (d2 ++ d3) := by
    have e1 : (6 : Nat) = d1.length + 4 := by omega
    rw [e1, List.take_append]
    have e2 : (4 : Nat) = d2.length + 2 := by omega
    rw [e2, List.take_append]
    rw [List.take_left' hl3]
  have hdate : (B.take (und.length + 6)).drop (und.length + 6 - 6) = d1 ++ (d2 ++ d3) := by
    have h6 : und.length + 6 - 6 = und.length := by omega
    rw [h6, hBdef, List.take_append, htake6]
    exact List.drop_left _ _
  rw [← hstrip] at hfa hli hgetp hdrop7 htick hdate
  simp only [parseOptionSymbol]
  rw [hfa]
  simp only
  rw [hgetp]
  have hkind : (if kc = 'P' then OptKind.PUT else OptKind.CALL) = k := by
    cases k <;> simp [hkc, kindChar]
  rw [hkind, hli]
  simp only [Option.some.injEq]
  simp only [extractAt]
  rw [hdate, htick]
  have h7 : und.length + 6 + 1 = und.length + 7 := rfl
  rw [h7, hdrop7]
  have hy : (d1 ++ (d2 ++ d3)).take 2 = d1 := List.take_left' hl1
  have hm : ((d1 ++ (d2 ++ d3)).drop 2).take 2 = d2 := by
    rw [List.drop_left' hl1]
    exact List.take_left' hl2
  have hd : ((d1 ++ (d2 ++ d3)).drop 4).take 2 = d3 := by
    have : (d1 ++ (d2 ++ d3)).drop 4 = ((d1 ++ (d2 ++ d3)).drop 2).drop 2 := by
      rw [List.drop_drop]
    rw [this, List.drop_left' hl1, List.drop_left' hl2]
    exact List.take_of_length_le (by omega)
  rw [hy, hm, hd]
  rw [jsParseInt_natToDigits 2 yy (by norm_num) (by norm_num; omega),
    jsParseInt_natToDigits 2 mm (by norm_num) (by norm_num; omega),
    jsParseInt_natToDigits 2 dd (by norm_num) (by norm_num; omega),
    jsParseInt_natToDigits 8 strikeMilli (by norm_num) hsm]
  simp

/-- The S1 input `"O:SPY251219C00650000"`. -/
def occS1 : List Char :=
  ['O', ':', 'S', 'P', 'Y', '2', '5', '1', '2', '1', '9', 'C', '0', '0', '6', '5', '0', '0', '0', '0']

/-- Claim C6: for every valid tuple (underlying, YYMMDD date, kind, strike in
thousandths), parsing the constructed OCC symbol returns the same tuple with
the strike recovered exactly (to 3-decimal precision, `strikeMilli/1000`);
in particular parsing `"O:SPY251219C00650000"` yields underlying SPY,
expiration 2025-12-19, kind Call, strike 650. -/
theorem symbolCodec_roundTrip :
    (∀ (und : List Char) (yy mm dd : Nat) (k : OptKind) (strikeMilli : Nat),
      und ≠ [] → (∀ c ∈ und, 'A' ≤ c ∧ c ≤ 'Z') →
      yy < 100 → 1 ≤ mm → mm ≤ 12 → 1 ≤ dd → dd ≤ 31 → strikeMilli < 10 ^ 8 →
      parseOptionSymbol (mkOCCSymbol und yy mm dd k strikeMilli) =
        some ⟨und, some (2000 + yy), some mm, some dd,
          some ((strikeMilli : ℚ) / 1000), k⟩) ∧
    parseOptionSymbol occS1 =
      some ⟨['S', 'P', 'Y'], some 2025, some 12, some 19, some 650, OptKind.CALL⟩ := by
  refine ⟨parse_mkOCC_roundTrip, ?_⟩
  have h := parse_mkOCC_roundTrip ['S', 'P', 'Y'] 25 12 19 OptKind.CALL 650000
    (by decide) (by decide) (by norm_num) (by norm_num) (by norm_num) (by norm_num)
    (by norm_num) (by norm_num)
  have hocc : mkOCCSymbol ['S', 'P', 'Y'] 25 12 19 OptKind.CALL 650000 = occS1 := by decide
  rw [hocc] at h
  rw [h]
  norm_num

/-- Witness for C6 at the S1 tuple. -/
theorem symbolCodec_roundTrip_witness :
    (['S', 'P', 'Y'] : List Char) ≠ [] ∧
    (∀ c ∈ (['S', 'P', 'Y'] : List Char), 'A' ≤ c ∧ c ≤ 'Z') ∧
    parseOptionSymbol (mkOCCSymbol ['S', 'P', 'Y'] 25 12 19 OptKind.CALL 650000) =
      some ⟨['S', 'P', 'Y'], some 2025, some 12, some 19, some 650, OptKind.CALL⟩ := by
  have h := symbolCodec_roundTrip.1 ['S', 'P', 'Y'] 25 12 19 OptKind.CALL 650000
    (by decide) (by decide) (by norm_num) (by norm_num) (by norm_num) (by norm_num)
    (by norm_num) (by norm_num)
  refine ⟨by decide, by decide, ?_⟩
  rw [h]
  norm_num

end SweepAlgo
